import Mathlib

/-!
Verification of the BNAF density-estimator module `icenet/deep/dbnf.py`.

The development shallowly embeds the module's functions over an ordered field
`α` (instantiated with `ℝ` in the analytic theorems and with `ℚ` for concrete
evaluations).  Transcendental primitives (`exp`, `log`, the constant
`sqrt(2*pi)`) are passed explicitly through a `NumOps` bundle so that every
definition stays computable; the real-analytic theorems instantiate the bundle
with `Real.exp`, `Real.log` and `Real.sqrt (2 * Real.pi)`.

Floating-point non-finiteness matters only at the `exp`/ratio boundary of
`get_pdf`/`predict` (the module itself masks non-finite ratio outputs), so the
pdf values are modelled by `RFloat α`: either a finite value, `inf`, `neginf`
or `nan`, with the IEEE-like behaviour of the numpy operations the code uses
(`+`, `/`, `clip`, `isfinite`).  Finite arithmetic is exact; `exp` under- and
overflow thresholds are explicit parameters (`expLo`, `expHi`).
-/

namespace Dbnf

/-- Numeric primitives used by `dbnf.py` that are not field operations.
`exp`, `log` and the constant `sqrt(2*pi)` are the mathematical functions;
`expLo`/`expHi` are the floating-point underflow/overflow thresholds of `exp`
(the only place where the module's behaviour depends on float limits). -/
structure NumOps (α : Type) where
  exp : α → α
  log : α → α
  sqrt2pi : α
  expLo : α
  expHi : α

/-- A flow model object: per-sample forward pass `x ↦ (y, log_diag)`.
The torch model maps a batch to a batch; the embedding is per sample and the
batch dimension is a `List.map`. -/
structure Model (α : Type) where
  forward : List α → List α × α

variable {α : Type} [LinearOrderedField α]

/-- One elementwise term of
`torch.distributions.Normal(0, 1).log_prob(y)`, whose torch implementation is
`-((value - loc)^2) / (2*var) - log_scale - log(sqrt(2*pi))` with
`loc = 0`, `var = 1`, `log_scale = log 1`. -/
def normalLogProb (ops : NumOps α) (y : α) : α :=
  -((y - 0) ^ 2) / (2 * 1 ^ 2) - ops.log 1 - ops.log ops.sqrt2pi

/-- dbnf.compute_log_p_x: `(y, log_diag) = model(x)`;
`log_p_y = Normal(0,1).log_prob(y).sum(dim=-1)`; result `log_p_y + log_diag`,
one value per sample of the batch `x`. -/
def compute_log_p_x (ops : NumOps α) (model : Model α) (x : List (List α)) :
    List α :=
  x.map (fun xi =>
    ((model.forward xi).1.map (normalLogProb ops)).sum + (model.forward xi).2)

/-- Extended value domain for the numpy side of the module: a finite float
(with exact arithmetic), `inf`, `-inf` or `nan`. -/
inductive RFloat (α : Type) where
  | fin (v : α)
  | inf
  | neginf
  | nan
deriving DecidableEq

/-- numpy `isfinite`. -/
def RFloat.isFinite : RFloat α → Bool
  | .fin _ => true
  | _ => false

/-- IEEE addition on the extended values (numpy `+`). -/
def radd : RFloat α → RFloat α → RFloat α
  | .nan, _ => .nan
  | _, .nan => .nan
  | .fin a, .fin b => .fin (a + b)
  | .inf, .neginf => .nan
  | .neginf, .inf => .nan
  | .inf, _ => .inf
  | _, .inf => .inf
  | .neginf, _ => .neginf
  | _, .neginf => .neginf

/-- IEEE division on the extended values (numpy `/`): `x/0` is `±inf` for
`x ≠ 0` and `nan` for `x = 0`; `inf/inf` is `nan`; `finite/inf` is `0`. -/
def rdiv : RFloat α → RFloat α → RFloat α
  | .nan, _ => .nan
  | _, .nan => .nan
  | .fin a, .fin b =>
      if b = 0 then (if a = 0 then .nan else if 0 < a then .inf else .neginf)
      else .fin (a / b)
  | .fin _, .inf => .fin 0
  | .fin _, .neginf => .fin 0
  | .inf, .fin b => if 0 ≤ b then .inf else .neginf
  | .inf, .inf => .nan
  | .inf, .neginf => .nan
  | .neginf, .fin b => if 0 ≤ b then .neginf else .inf
  | .neginf, .inf => .nan
  | .neginf, .neginf => .nan

/-- numpy `clip(x, lo, None)`: a lower clip, `maximum(x, lo)` with a finite
`lo`; `nan` passes through. -/
def rclipLower (x : RFloat α) (lo : α) : RFloat α :=
  match x with
  | .fin v => .fin (max v lo)
  | .inf => .inf
  | .neginf => .fin lo
  | .nan => .nan

/-- numpy `minimum` on extended values (used to state the spec's
`clip(·, EPS, inf)` with an explicit infinite upper bound). -/
def rminimum : RFloat α → RFloat α → RFloat α
  | .nan, _ => .nan
  | _, .nan => .nan
  | .fin a, .fin b => .fin (min a b)
  | .fin a, .inf => .fin a
  | .fin _, .neginf => .neginf
  | .inf, x => x
  | .neginf, _ => .neginf

/-- Floating-point `exp` of an exactly-represented argument: overflows to
`inf` above `expHi`, underflows to `+0` below `expLo`, exact in between. -/
def floatExp (ops : NumOps α) (v : α) : RFloat α :=
  if ops.expHi < v then .inf
  else if v < ops.expLo then .fin 0
  else .fin (ops.exp v)

/-- dbnf.get_pdf: `exp(compute_log_p_x(model, x))`, detached to a numpy
array — the only step where float underflow/overflow is observable. -/
def get_pdf (ops : NumOps α) (model : Model α) (x : List (List α)) :
    List (RFloat α) :=
  (compute_log_p_x ops model x).map (floatExp ops)

/-- dbnf.predict before the non-finite masking:
`bgk_pdf = get_pdf(models[0], X)`, `sgn_pdf = get_pdf(models[1], X)`, then
`sgn_pdf / clip(sgn_pdf + bgk_pdf, EPS, None)` when `return_prob` else
`sgn_pdf / clip(bgk_pdf, EPS, None)`.  The two models are passed as the pair
(models0, models1) = (background, signal). -/
def predict_raw (ops : NumOps α) (X : List (List α)) (models0 models1 : Model α)
    (return_prob : Bool) (EPS : α) : List (RFloat α) :=
  let bgk_pdf := get_pdf ops models0 X
  let sgn_pdf := get_pdf ops models1 X
  if return_prob then
    List.zipWith (fun s b => rdiv s (rclipLower (radd s b) EPS)) sgn_pdf bgk_pdf
  else
    List.zipWith (fun s b => rdiv s (rclipLower b EPS)) sgn_pdf bgk_pdf

/-- The masking assignment `out[~np.isfinite(out)] = 0` applied to one entry. -/
def maskNonFinite (x : RFloat α) : RFloat α :=
  if x.isFinite then x else .fin 0

/-- dbnf.predict: the raw ratio with every non-finite entry replaced by `0`.
`EPS` defaults to `1e-9` as in the source. -/
def predict (ops : NumOps α) (X : List (List α)) (models0 models1 : Model α)
    (return_prob : Bool) (EPS : α := 1 / 1000000000) : List (RFloat α) :=
  (predict_raw ops X models0 models1 return_prob EPS).map maskNonFinite

/-- Spec-side restatement of the ratio formula, written from the spec's words:
per row `pdf_S / clip(pdf_S + pdf_B, eps, inf)` when `return_prob`, else
`pdf_S / clip(pdf_B, eps, inf)`, with the clip written as
`minimum(maximum(·, eps), inf)` and `pdf_B`/`pdf_S` the `get_pdf` values of
the background (`models0`) and signal (`models1`) model. -/
def predict_spec (ops : NumOps α) (X : List (List α)) (models0 models1 : Model α)
    (return_prob : Bool) (EPS : α) : List (RFloat α) :=
  let pdf_B := get_pdf ops models0 X
  let pdf_S := get_pdf ops models1 X
  if return_prob then
    List.zipWith (fun s b => rdiv s (rminimum (rclipLower (radd s b) EPS) RFloat.inf))
      pdf_S pdf_B
  else
    List.zipWith (fun s b => rdiv s (rminimum (rclipLower b EPS) RFloat.inf))
      pdf_S pdf_B

/-- Mean of a stacked list of losses (`torch.stack(...).mean()`). -/
def mean (l : List α) : α := l.sum / (l.length : α)

/-- dbnf.train's inner loss function:
`w = weights / torch.sum(weights, dim=0)`;
`lossvec = compute_log_p_x(model, x)`; result `-(lossvec * w).sum(dim=0)`. -/
def lossfunc (ops : NumOps α) (model : Model α) (x : List (List α))
    (weights : List α) : α :=
  let w := weights.map (fun wi => wi / weights.sum)
  let lossvec := compute_log_p_x ops model x;
  -(List.zipWith (fun li wi => li * wi) lossvec w).sum

/-- Optimizer-owned parameter store: `params` is the snapshot currently live
in the model, `rawLive` records whether that is the raw trajectory (`true`) or
the Polyak-averaged one (`false`); `optimizer.swap()` toggles it. -/
structure OptState (π : Type) where
  params : π
  rawLive : Bool

/-- One persisted checkpoint
(`{modeldir}/{save_name}_{epoch}.pth` with model, optimizer, epoch, losses). -/
structure Checkpoint (α π : Type) where
  filename : String
  model : π
  optimizer : OptState π
  epoch : ℕ
  trn_losses : List α
  val_losses : List α

/-- Observable per-epoch record: epoch index, number of `optimizer.swap()`
calls performed during the epoch, whether validation ran, and the train and
validation losses logged for the epoch. -/
structure EpochLog (α : Type) where
  epoch : ℕ
  swaps : ℕ
  ranValidation : Bool
  train_loss : α
  validation_loss : α

/-- Training-loop state threaded through the epochs.  `vloss` models the
Python local variable `validation_loss`: `none` while it is still unbound. -/
structure LoopState (α π σ : Type) where
  opt : OptState π
  sched : σ
  vloss : Option α
  trn_losses : List α
  val_losses : List α
  checkpoints : List (Checkpoint α π)
  logs : List (EpochLog α)

/-- Configuration of a dbnf.train run.  The delegated collaborators are
abstract: `interp` reads the live parameters as a density model, `stepf` is
the parameter update of `optimizer.step()`, `swapf` the parameter-content
effect of `optimizer.swap()`, `schedStep` is
`scheduler.step(validation_loss) -> stop`, and `trnIdx`/`valIdx` are the index
batches produced by the delegated `BatchSampler`s. -/
structure TrainCfg (α π σ : Type) where
  ops : NumOps α
  interp : π → Model α
  stepf : π → π
  swapf : π → π
  schedStep : σ → α → σ × Bool
  trnIdx : List (List ℕ)
  valIdx : List (List ℕ)
  start_epoch : ℕ
  epochs : ℕ
  evalmode : ℕ
  modeldir : String
  save_name : String

/-- One `optimizer.swap()` call. -/
def swapCall (cfg : TrainCfg α π σ) (o : OptState π) : OptState π :=
  ⟨cfg.swapf o.params, !o.rawLive⟩

/-- Condition of the conditional validation phase:
`epoch == 0 or (epoch % param['evalmode']) == 0`. -/
def validationCond (evalmode epoch : ℕ) : Bool :=
  epoch == 0 || epoch % evalmode == 0

/-- One epoch of dbnf.train: the TRAIN phase over the training batches
(per batch: loss, backward, gradient clip, `optimizer.step()`), one
`optimizer.swap()` after the batch loop, the conditional VALIDATE phase
(ending in a second `optimizer.swap()`), the metric appends — reading the
possibly-unbound `validation_loss`, a `NameError` when it was never
computed —, the scheduler step and the unconditional checkpoint.
Returns the new state and the scheduler's `stop` flag. -/
def runEpoch (cfg : TrainCfg α π σ)
    (trn_batches val_batches : List (List (List α) × List α)) (e : ℕ)
    (st : LoopState α π σ) : Except String (LoopState α π σ × Bool) :=
  let tr := trn_batches.foldl
    (fun acc b =>
      (⟨cfg.stepf acc.1.params, acc.1.rawLive⟩,
       acc.2 ++ [lossfunc cfg.ops (cfg.interp acc.1.params) b.1 b.2]))
    (st.opt, ([] : List α))
  let train_loss := mean tr.2
  let opt1 := swapCall cfg tr.1
  let vres : OptState π × Option α × ℕ :=
    if validationCond cfg.evalmode e then
      let validation_loss :=
        mean (val_batches.map (fun b => lossfunc cfg.ops (cfg.interp opt1.params) b.1 b.2))
      (swapCall cfg opt1, some validation_loss, 2)
    else
      (opt1, st.vloss, 1)
  match vres.2.1 with
  | none => Except.error "NameError: validation_loss"
  | some v =>
    let trn_losses' := st.trn_losses ++ [train_loss]
    let val_losses' := st.val_losses ++ [v]
    let sres := cfg.schedStep st.sched v
    let cp : Checkpoint α π :=
      ⟨cfg.modeldir ++ "/" ++ cfg.save_name ++ "_" ++ toString e ++ ".pth",
       vres.1.params, vres.1, e, trn_losses', val_losses'⟩
    Except.ok
      (⟨vres.1, sres.1, some v, trn_losses', val_losses',
        st.checkpoints ++ [cp],
        st.logs ++ [⟨e, vres.2.2, validationCond cfg.evalmode e, train_loss, v⟩]⟩,
       sres.2)

/-- The epoch loop: run the listed epochs in order, propagating the first
failure and breaking early when the scheduler signals `stop`. -/
def runEpochs (cfg : TrainCfg α π σ)
    (trn_batches val_batches : List (List (List α) × List α)) :
    List ℕ → LoopState α π σ → Except String (LoopState α π σ)
  | [], st => Except.ok st
  | e :: rest, st =>
    match runEpoch cfg trn_batches val_batches e st with
    | Except.error msg => Except.error msg
    | Except.ok r =>
      if r.2 then Except.ok r.1 else runEpochs cfg trn_batches val_batches rest r.1

/-- Delegated batch loading: given sampled index batches, gather the rows of
`X` and the matching weights. -/
def makeBatches (X : List (List α)) (W : List α) (idx : List (List ℕ)) :
    List (List (List α) × List α) :=
  idx.map (fun is => (is.map (fun i => X.getD i []), is.map (fun i => W.getD i 0)))

/-- Loop state at the start of training: `validation_loss` unbound, empty
loss histories, no checkpoints. -/
def initLoopState (opt0 : OptState π) (s0 : σ) : LoopState α π σ :=
  ⟨opt0, s0, none, [], [], [], []⟩

/-- dbnf.train: substitute unit weights when `trn_weights`/`val_weights` is
`None`, build the batched loaders, and run the epochs
`range(start_epoch, start_epoch + epochs)`. -/
def train (cfg : TrainCfg α π σ) (opt0 : OptState π) (s0 : σ)
    (trn_x val_x : List (List α)) (trn_weights val_weights : Option (List α)) :
    Except String (LoopState α π σ) :=
  let trn_w := match trn_weights with
    | none => List.replicate trn_x.length 1
    | some w => w
  let val_w := match val_weights with
    | none => List.replicate val_x.length 1
    | some w => w
  runEpochs cfg (makeBatches trn_x trn_w cfg.trnIdx) (makeBatches val_x val_w cfg.valIdx)
    (List.range' cfg.start_epoch cfg.epochs) (initLoopState opt0 s0)

/-- Architecture atom of a BNAF flow block: a `MaskedWeight(in, out, dim)`
layer or a `Tanh()` layer. -/
inductive LayerSpec where
  | maskedWeight (in_features out_features dim : ℕ)
  | tanh
deriving DecidableEq

/-- Module of the `Sequential` built by dbnf.create_model: a `BNAF` flow
block (its layer list and its `res` argument) or a `Permutation`.  `ρ` and
`τ` are the types of the `residual` and `perm` parameter values. -/
inductive ModuleSpec (ρ τ : Type) where
  | bnaf (layers : List LayerSpec) (res : Option ρ)
  | permutation (n_dims : ℕ) (perm : τ)

/-- Whether a module is a BNAF flow block. -/
def ModuleSpec.isBnaf {ρ τ : Type} : ModuleSpec ρ τ → Bool
  | .bnaf _ _ => true
  | _ => false

/-- Whether a module is a Permutation layer. -/
def ModuleSpec.isPermutation {ρ τ : Type} : ModuleSpec ρ τ → Bool
  | .permutation _ _ => true
  | _ => false

/-- The `param` dictionary entries consumed by dbnf.create_model. -/
structure ModelParam (ρ τ : Type) where
  n_dims : ℕ
  hidden_dim : ℕ
  layers : ℕ
  flows : ℕ
  residual : ρ
  perm : τ

/-- Layer list of one BNAF flow block:
`MaskedWeight(n_dims, n_dims*hidden_dim), Tanh()`, then `layers` repetitions
of `MaskedWeight(n_dims*hidden_dim, n_dims*hidden_dim), Tanh()`, then
`MaskedWeight(n_dims*hidden_dim, n_dims)`, all with `dim=n_dims`. -/
def bnafLayers {ρ τ : Type} (p : ModelParam ρ τ) : List LayerSpec :=
  let innerLayers := (List.range p.layers).foldl
    (fun acc _ => acc ++
      [LayerSpec.maskedWeight (p.n_dims * p.hidden_dim) (p.n_dims * p.hidden_dim) p.n_dims,
       LayerSpec.tanh]) []
  [LayerSpec.maskedWeight p.n_dims (p.n_dims * p.hidden_dim) p.n_dims,
   LayerSpec.tanh] ++ innerLayers ++
  [LayerSpec.maskedWeight (p.n_dims * p.hidden_dim) p.n_dims p.n_dims]

/-- dbnf.create_model: for `f in range(flows)` append a `BNAF` block with
`res = residual if f < flows - 1 else None`, and after every block except the
last append a `Permutation(n_dims, perm)`; the resulting list is the
`Sequential`. -/
def create_model {ρ τ : Type} (p : ModelParam ρ τ) : List (ModuleSpec ρ τ) :=
  (List.range p.flows).foldl
    (fun acc f =>
      let withBlock := acc ++
        [ModuleSpec.bnaf (bnafLayers p)
          (if f < p.flows - 1 then some p.residual else none)]
      if f < p.flows - 1 then withBlock ++ [ModuleSpec.permutation p.n_dims p.perm]
      else withBlock)
    []

/-- Spec-side architecture: `n` flow blocks alternating with `n - 1`
permutation layers, one permutation between each pair of consecutive blocks,
the residual configured on every block except the last, which gets `None`. -/
def altChain {ρ τ : Type} (p : ModelParam ρ τ) : ℕ → List (ModuleSpec ρ τ)
  | 0 => []
  | 1 => [ModuleSpec.bnaf (bnafLayers p) none]
  | n + 2 =>
    ModuleSpec.bnaf (bnafLayers p) (some p.residual) ::
      ModuleSpec.permutation p.n_dims p.perm :: altChain p (n + 1)

/-- Trivial flow model over `ℚ` used for concrete evaluations: every sample
is mapped to an empty output with zero log-determinant. -/
def trivModelQ : Model ℚ := ⟨fun _ => ([], 0)⟩

/-- Concrete numeric bundle over `ℚ` with a stub `exp`/`log` and thresholds
that keep `floatExp` in its exact regime. -/
def opsQ : NumOps ℚ := ⟨fun _ => 1, fun _ => 0, 0, 0, 0⟩

/-- Concrete numeric bundle over `ℚ` whose overflow threshold is below every
log-likelihood value, so `floatExp` always overflows to `inf`. -/
def opsQoverflow : NumOps ℚ := ⟨fun _ => 1, fun _ => 0, 0, 0, -1⟩

/-- Concrete two-epoch training configuration over `ℚ` with trivial
collaborators, `start_epoch = 0`, `evalmode = 2`: epoch 0 validates, epoch 1
skips validation. -/
def cfgQ : TrainCfg ℚ Unit Unit :=
  { ops := opsQ
    interp := fun _ => trivModelQ
    stepf := id
    swapf := id
    schedStep := fun s _ => (s, false)
    trnIdx := []
    valIdx := []
    start_epoch := 0
    epochs := 2
    evalmode := 2
    modeldir := "m"
    save_name := "s" }

/-- Variant of `cfgQ` whose first epoch index is neither 0 nor divisible by
`evalmode`, so its first epoch skips validation. -/
def cfgQ9 : TrainCfg ℚ Unit Unit := { cfgQ with start_epoch := 3, epochs := 1 }

/-- Projection of a training run onto its observable swap behaviour: per
epoch `(epoch, number of optimizer.swap() calls, validation ran)`, plus
whether the raw parameter view is live after the last epoch. -/
def swapTrace (r : Except String (LoopState ℚ Unit Unit)) :
    List (ℕ × ℕ × Bool) × Bool :=
  match r with
  | Except.ok st => (st.logs.map (fun l => (l.epoch, l.swaps, l.ranValidation)), st.opt.rawLive)
  | Except.error _ => ([], true)

/-- Concrete `create_model` parameter set with two flows. -/
def pW : ModelParam ℕ ℕ := ⟨2, 3, 1, 2, 7, 5⟩

lemma rminimum_inf (x : RFloat α) : rminimum x RFloat.inf = x := by
  cases x <;> rfl

lemma zipWith_getElem?_some {β γ δ : Type} (f : β → γ → δ) (l1 : List β) :
    ∀ (l2 : List γ) (i : ℕ) (a : β) (b : γ),
      l1[i]? = some a → l2[i]? = some b →
      (List.zipWith f l1 l2)[i]? = some (f a b) := by
  induction l1 with
  | nil => intro l2 i a b ha; simp at ha
  | cons x xs ih =>
    intro l2 i a b ha hb
    cases l2 with
    | nil => simp at hb
    | cons y ys =>
      cases i with
      | zero =>
        simp only [List.getElem?_cons_zero, Option.some.injEq] at ha hb
        simp [List.zipWith_cons_cons, ha, hb]
      | succ j =>
        simp only [List.getElem?_cons_succ] at ha hb
        simpa using ih ys j a b ha hb

/-- C1: for every model and input batch, `compute_log_p_x` returns per sample
the sum over output dimensions of the standard-Gaussian log-density at the
transformed point plus the accumulated log-determinant, where
`(y, log_diag) = model(x)`. -/
theorem compute_log_p_x_change_of_variables (lo hi : ℝ) (model : Model ℝ)
    (x : List (List ℝ)) :
    compute_log_p_x ⟨Real.exp, Real.log, Real.sqrt (2 * Real.pi), lo, hi⟩ model x =
      x.map (fun xi =>
        ((model.forward xi).1.map
          (fun y => Real.log (Real.exp (-(y ^ 2) / 2) / Real.sqrt (2 * Real.pi)))).sum
        + (model.forward xi).2) := by
  unfold compute_log_p_x
  refine List.map_congr_left fun xi _ => ?_
  congr 1
  refine congrArg List.sum (List.map_congr_left fun y _ => ?_)
  rw [normalLogProb]
  rw [Real.log_div (Real.exp_ne_zero _) (by positivity), Real.log_exp]
  simp only [Real.log_one]
  ring

/-- C3: `predict` computes per row `pdf_S / clip(pdf_S + pdf_B, EPS, inf)`
when `return_prob` and `pdf_S / clip(pdf_B, EPS, inf)` otherwise, with
`pdf_B`/`pdf_S` the `get_pdf` values of `models0` (background) and `models1`
(signal): the returned list is that formula with non-finite entries masked,
every finite entry of the formula is returned unchanged, and `EPS` defaults
to `1e-9`. -/
theorem predict_ratio_formula (ops : NumOps α) (X : List (List α))
    (m0 m1 : Model α) (rp : Bool) (EPS : α) :
    (predict ops X m0 m1 rp EPS =
      (predict_spec ops X m0 m1 rp EPS).map maskNonFinite) ∧
    (∀ (i : ℕ) (v : RFloat α),
      (predict_spec ops X m0 m1 rp EPS)[i]? = some v → v.isFinite = true →
      (predict ops X m0 m1 rp EPS)[i]? = some v) ∧
    (predict ops X m0 m1 rp = predict ops X m0 m1 rp (1 / 1000000000)) := by
  have hsr : predict_raw ops X m0 m1 rp EPS = predict_spec ops X m0 m1 rp EPS := by
    unfold predict_raw predict_spec
    cases rp <;> simp only [Bool.false_eq_true, if_false, if_true] <;>
      · congr 1
        funext s b
        rw [rminimum_inf]
  refine ⟨by rw [predict, hsr], ?_, rfl⟩
  intro i v hv hfin
  rw [predict, hsr, List.getElem?_map, hv]
  simp [maskNonFinite, hfin]

theorem predict_ratio_formula_witness :
    (predict_spec opsQ [[]] trivModelQ trivModelQ false 1)[0]? = some (RFloat.fin 1) ∧
    (predict opsQ [[]] trivModelQ trivModelQ false 1)[0]? = some (RFloat.fin 1) := by
  have hv : (predict_spec opsQ [[]] trivModelQ trivModelQ false 1)[0]? = some (RFloat.fin 1) := by
    simp [predict_spec, get_pdf, compute_log_p_x, floatExp, opsQ, trivModelQ,
      rdiv, rclipLower, rminimum, radd]
  exact ⟨hv, (predict_ratio_formula opsQ [[]] trivModelQ trivModelQ false 1).2.1 0
    (RFloat.fin 1) hv rfl⟩

/-- C4: any entry of the raw `predict` output that is non-finite is replaced
by exactly `0.0` in the returned array (the embedding is total, so no error
is raised). -/
theorem predict_nonfinite_masked_to_zero (ops : NumOps α) (X : List (List α))
    (m0 m1 : Model α) (rp : Bool) (EPS : α) (i : ℕ) (v : RFloat α)
    (hv : (predict_raw ops X m0 m1 rp EPS)[i]? = some v)
    (hnf : v.isFinite = false) :
    (predict ops X m0 m1 rp EPS)[i]? = some (RFloat.fin 0) := by
  rw [predict, List.getElem?_map, hv]
  simp [maskNonFinite, hnf]

theorem predict_nonfinite_masked_to_zero_witness :
    (predict_raw opsQoverflow [[]] trivModelQ trivModelQ true 1)[0]? = some RFloat.nan ∧
    (predict opsQoverflow [[]] trivModelQ trivModelQ true 1)[0]? = some (RFloat.fin 0) := by
  have hv : (predict_raw opsQoverflow [[]] trivModelQ trivModelQ true 1)[0]? = some RFloat.nan := by
    simp [predict_raw, get_pdf, compute_log_p_x, floatExp, opsQoverflow, trivModelQ,
      rdiv, rclipLower, radd]
  exact ⟨hv, predict_nonfinite_masked_to_zero opsQoverflow [[]] trivModelQ trivModelQ
    true 1 0 RFloat.nan hv rfl⟩

lemma sum_map_div (l : List α) (S : α) :
    (l.map (fun wi => wi / S)).sum = l.sum / S := by
  induction l with
  | nil => simp
  | cons a t ih => simp [ih, add_div]

lemma sum_zipWith_mul_replicate (l : List α) (c : α) :
    (List.zipWith (fun li wi => li * wi) l (List.replicate l.length c)).sum = l.sum * c := by
  induction l with
  | nil => simp
  | cons a t ih => simp [List.replicate_succ, ih, add_mul]

/-- C5: the loss is computed on weights renormalized to sum to 1 — the
normalized weight vector sums to 1 whenever the raw weights have non-zero
sum, and the loss equals the negative of the sum over the batch of
`(w_i / sum_j w_j) * compute_log_p_x(model, x_i)`. -/
theorem lossfunc_weight_normalization (ops : NumOps α) (model : Model α)
    (x : List (List α)) (weights : List α) :
    (weights.sum ≠ 0 → (weights.map (fun wi => wi / weights.sum)).sum = 1) ∧
    lossfunc ops model x weights =
      -(List.zipWith (fun wi li => wi / weights.sum * li) weights
          (compute_log_p_x ops model x)).sum := by
  constructor
  · intro h
    rw [sum_map_div, div_self h]
  · rw [lossfunc]
    congr 1
    rw [List.zipWith_map_right, List.zipWith_comm]
    have hf : (fun (b a : α) => a * (b / weights.sum)) =
        (fun (wi li : α) => wi / weights.sum * li) := by
      funext wi li
      exact mul_comm _ _
    rw [hf]

theorem lossfunc_weight_normalization_witness :
    ([(1 : ℚ)].sum ≠ 0) ∧
    ([(1 : ℚ)].map (fun wi => wi / [(1 : ℚ)].sum)).sum = 1 := by
  have h : ([(1 : ℚ)]).sum ≠ 0 := by simp
  exact ⟨h, (lossfunc_weight_normalization opsQ trivModelQ [] [(1 : ℚ)]).1 h⟩

/-- C10: `train` substitutes unit weights of the right length when the
training or validation weights are `None` — a run with `None` weights equals
the run with explicit all-ones weights — and on an all-ones batch the
normalized loss weights every sample equally, by `1 / batch-size`. -/
theorem train_none_weights_unit (cfg : TrainCfg α π σ) (opt0 : OptState π)
    (s0 : σ) (trn_x val_x : List (List α)) :
    (train cfg opt0 s0 trn_x val_x none none =
      train cfg opt0 s0 trn_x val_x (some (List.replicate trn_x.length 1))
        (some (List.replicate val_x.length 1))) ∧
    (∀ (ops : NumOps α) (model : Model α) (x : List (List α)),
      lossfunc ops model x (List.replicate x.length 1) =
        -((compute_log_p_x ops model x).sum / (x.length : α))) := by
  refine ⟨rfl, fun ops model x => ?_⟩
  rw [lossfunc]
  have hS : (List.replicate x.length (1 : α)).sum = (x.length : α) := by
    rw [List.sum_replicate, nsmul_eq_mul, mul_one]
  have hlen : (compute_log_p_x ops model x).length = x.length := by
    simp [compute_log_p_x]
  rw [List.map_replicate, hS, ← hlen, sum_zipWith_mul_replicate, mul_one_div]

lemma floatExp_exact_range (ops : NumOps α) (L : α) (h1 : ops.expLo ≤ L)
    (h2 : L ≤ ops.expHi) : floatExp ops L = RFloat.fin (ops.exp L) := by
  rw [floatExp, if_neg (not_lt.mpr h2), if_neg (not_lt.mpr h1)]

lemma floatExp_fin_nonneg (ops : NumOps ℝ) (hexp : ops.exp = Real.exp) (L : ℝ)
    (hL : L ≤ ops.expHi) : ∃ v, floatExp ops L = RFloat.fin v ∧ 0 ≤ v := by
  rw [floatExp, if_neg (not_lt.mpr hL)]
  by_cases h : L < ops.expLo
  · exact ⟨0, by rw [if_pos h], le_refl 0⟩
  · refine ⟨ops.exp L, by rw [if_neg h], ?_⟩
    rw [hexp]
    exact (Real.exp_pos L).le

lemma predict_entry_formula (ops : NumOps α) (X : List (List α))
    (m0 m1 : Model α) (EPS : α) (i : ℕ) (L0 L1 : α)
    (h0 : (compute_log_p_x ops m0 X)[i]? = some L0)
    (h1 : (compute_log_p_x ops m1 X)[i]? = some L1) :
    (predict ops X m0 m1 true EPS)[i]? =
      some (maskNonFinite (rdiv (floatExp ops L1)
        (rclipLower (radd (floatExp ops L1) (floatExp ops L0)) EPS))) := by
  have hs : (get_pdf ops m1 X)[i]? = some (floatExp ops L1) := by
    rw [get_pdf, List.getElem?_map, h1]; rfl
  have hb : (get_pdf ops m0 X)[i]? = some (floatExp ops L0) := by
    rw [get_pdf, List.getElem?_map, h0]; rfl
  have hz : (predict_raw ops X m0 m1 true EPS)[i]? =
      some (rdiv (floatExp ops L1)
        (rclipLower (radd (floatExp ops L1) (floatExp ops L0)) EPS)) :=
    zipWith_getElem?_some _ _ _ _ _ _ hs hb
  rw [predict, List.getElem?_map, hz]; rfl

/-- C7: with `return_prob = True`, whenever both pdf values at a row are
finite the returned entry is a finite value in `[0, 1]`; and when the two
models are identical and the row is non-degenerate (no exp underflow,
`EPS ≤ 2 * pdf`), the returned entry is exactly `1/2`. -/
theorem predict_prob_unit_interval_and_identical_half (lo hi : ℝ)
    (m0 m1 : Model ℝ) (X : List (List ℝ)) (EPS : ℝ) (i : ℕ) (hEPS : 0 < EPS) :
    (∀ L0 L1 : ℝ,
      (compute_log_p_x ⟨Real.exp, Real.log, Real.sqrt (2 * Real.pi), lo, hi⟩ m0 X)[i]? = some L0 →
      (compute_log_p_x ⟨Real.exp, Real.log, Real.sqrt (2 * Real.pi), lo, hi⟩ m1 X)[i]? = some L1 →
      L0 ≤ hi → L1 ≤ hi →
      ∃ r, (predict ⟨Real.exp, Real.log, Real.sqrt (2 * Real.pi), lo, hi⟩ X m0 m1 true EPS)[i]? =
          some (RFloat.fin r) ∧ 0 ≤ r ∧ r ≤ 1) ∧
    (m0 = m1 → ∀ L : ℝ,
      (compute_log_p_x ⟨Real.exp, Real.log, Real.sqrt (2 * Real.pi), lo, hi⟩ m1 X)[i]? = some L →
      lo ≤ L → L ≤ hi → EPS ≤ 2 * Real.exp L →
      (predict ⟨Real.exp, Real.log, Real.sqrt (2 * Real.pi), lo, hi⟩ X m0 m1 true EPS)[i]? =
        some (RFloat.fin (1 / 2))) := by
  set ops : NumOps ℝ := ⟨Real.exp, Real.log, Real.sqrt (2 * Real.pi), lo, hi⟩ with hops
  constructor
  · intro L0 L1 h0 h1 hL0 hL1
    obtain ⟨bv, hbfe, hbnn⟩ := floatExp_fin_nonneg ops rfl L0 hL0
    obtain ⟨sv, hsfe, hsnn⟩ := floatExp_fin_nonneg ops rfl L1 hL1
    have hent := predict_entry_formula ops X m0 m1 EPS i L0 L1 h0 h1
    rw [hbfe, hsfe] at hent
    have hmaxpos : 0 < max (sv + bv) EPS := lt_of_lt_of_le hEPS (le_max_right _ _)
    have hform : rdiv (RFloat.fin sv) (rclipLower (radd (RFloat.fin sv) (RFloat.fin bv)) EPS)
        = RFloat.fin (sv / max (sv + bv) EPS) := by
      rw [show radd (RFloat.fin sv) (RFloat.fin bv) = RFloat.fin (sv + bv) from rfl,
        show rclipLower (RFloat.fin (sv + bv)) EPS = RFloat.fin (max (sv + bv) EPS) from rfl]
      simp only [rdiv]
      rw [if_neg hmaxpos.ne']
    rw [hform] at hent
    refine ⟨sv / max (sv + bv) EPS, hent, div_nonneg hsnn hmaxpos.le, ?_⟩
    rw [div_le_one hmaxpos]
    exact le_trans (le_add_of_nonneg_right hbnn) (le_max_left _ _)
  · intro hm L h1 hlo hhi hEPS2
    subst hm
    have hfe : floatExp ops L = RFloat.fin (Real.exp L) := floatExp_exact_range ops L hlo hhi
    have hent := predict_entry_formula ops X m0 m0 EPS i L L h1 h1
    rw [hfe] at hent
    have hmax : max (Real.exp L + Real.exp L) EPS = 2 * Real.exp L := by
      rw [← two_mul]
      exact max_eq_left hEPS2
    have hform : rdiv (RFloat.fin (Real.exp L))
        (rclipLower (radd (RFloat.fin (Real.exp L)) (RFloat.fin (Real.exp L))) EPS)
        = RFloat.fin (1 / 2) := by
      rw [show radd (RFloat.fin (Real.exp L)) (RFloat.fin (Real.exp L))
            = RFloat.fin (Real.exp L + Real.exp L) from rfl,
        show rclipLower (RFloat.fin (Real.exp L + Real.exp L)) EPS
            = RFloat.fin (max (Real.exp L + Real.exp L) EPS) from rfl,
        hmax]
      have h2 : (2 : ℝ) * Real.exp L ≠ 0 := by positivity
      simp only [rdiv]
      rw [if_neg h2]
      congr 1
      rw [mul_comm, div_mul_cancel_left₀ (Real.exp_ne_zero L), inv_eq_one_div]
    rw [hform] at hent
    exact hent

theorem predict_prob_unit_interval_and_identical_half_witness :
    (0 : ℝ) < 1 ∧
    (predict (⟨Real.exp, Real.log, Real.sqrt (2 * Real.pi), -1, 1⟩ : NumOps ℝ) [[]]
      ⟨fun _ => ([], 0)⟩ ⟨fun _ => ([], 0)⟩ true 1)[0]? = some (RFloat.fin (1 / 2)) := by
  refine ⟨zero_lt_one, ?_⟩
  refine (predict_prob_unit_interval_and_identical_half (-1) 1
    ⟨fun _ => ([], 0)⟩ ⟨fun _ => ([], 0)⟩ [[]] 1 0 zero_lt_one).2 rfl 0 ?_ ?_ ?_ ?_
  · simp [compute_log_p_x]
  · exact neg_nonpos.mpr zero_le_one
  · exact zero_le_one
  · simp [Real.exp_zero]

/-- C6: every epoch that does not crash on an unbound `validation_loss`
(i.e. validation runs, or some earlier validation already computed a loss)
ends by appending exactly one checkpoint whose filename is
`{modeldir}/{save_name}_{epoch}.pth` and which contains the live model
parameters, the optimizer state, the epoch index and both loss histories;
one train-loss entry and one validation-loss entry are appended, and on
epochs whose validation is skipped the appended validation-loss entry is
exactly the last computed validation loss. -/
theorem runEpoch_checkpoint_unconditional (cfg : TrainCfg α π σ)
    (tb vb : List (List (List α) × List α)) (e : ℕ) (st : LoopState α π σ)
    (h : validationCond cfg.evalmode e = true ∨ ∃ v0, st.vloss = some v0) :
    (runEpoch cfg tb vb e st).isOk = true ∧
    ∀ (st' : LoopState α π σ) (stop : Bool),
      runEpoch cfg tb vb e st = Except.ok (st', stop) →
      st'.checkpoints = st.checkpoints ++
        [⟨cfg.modeldir ++ "/" ++ cfg.save_name ++ "_" ++ toString e ++ ".pth",
          st'.opt.params, st'.opt, e, st'.trn_losses, st'.val_losses⟩] ∧
      (∃ tl, st'.trn_losses = st.trn_losses ++ [tl]) ∧
      (∃ vl, st'.val_losses = st.val_losses ++ [vl]) ∧
      (validationCond cfg.evalmode e = false →
        ∀ v0, st.vloss = some v0 → st'.val_losses = st.val_losses ++ [v0]) := by
  by_cases hc : validationCond cfg.evalmode e = true
  · constructor
    · simp [runEpoch, hc, Except.isOk, Except.toBool]
    · intro st' stop hres
      simp only [runEpoch, hc, if_true] at hres
      simp only [Except.ok.injEq, Prod.mk.injEq] at hres
      obtain ⟨h1, _⟩ := hres
      subst h1
      refine ⟨rfl, ⟨_, rfl⟩, ⟨_, rfl⟩, ?_⟩
      intro hf
      rw [hf] at hc
      exact absurd hc (by decide)
  · have hc' : validationCond cfg.evalmode e = false := by
      cases hcv : validationCond cfg.evalmode e with
      | false => rfl
      | true => exact absurd hcv hc
    rcases h with h | ⟨v0, hv0⟩
    · exact absurd h hc
    constructor
    · simp [runEpoch, hc', hv0, Except.isOk, Except.toBool]
    · intro st' stop hres
      simp only [runEpoch, hc', Bool.false_eq_true, if_false, hv0] at hres
      simp only [Except.ok.injEq, Prod.mk.injEq] at hres
      obtain ⟨h1, _⟩ := hres
      subst h1
      refine ⟨rfl, ⟨_, rfl⟩, ⟨_, rfl⟩, ?_⟩
      intro _ v0' hv0'
      rw [hv0] at hv0'
      injection hv0' with hv
      subst hv
      rfl

theorem runEpoch_checkpoint_unconditional_witness :
    (validationCond cfgQ.evalmode 0 = true ∨
      ∃ v0, (initLoopState (α := ℚ) (⟨(), true⟩ : OptState Unit) ()).vloss = some v0) ∧
    (runEpoch cfgQ [] [] 0 (initLoopState ⟨(), true⟩ ())).isOk = true := by
  have h : validationCond cfgQ.evalmode 0 = true ∨
      ∃ v0, (initLoopState (α := ℚ) (⟨(), true⟩ : OptState Unit) ()).vloss = some v0 :=
    Or.inl rfl
  exact ⟨h, (runEpoch_checkpoint_unconditional cfgQ [] [] 0 (initLoopState ⟨(), true⟩ ()) h).1⟩

/-- C9: when the first epoch index is neither 0 nor divisible by `evalmode`,
the first epoch skips validation while the metric-saving step still reads
`validation_loss`, which is unbound, so `train` fails with the
unbound-variable error before completing its first epoch. -/
theorem train_unbound_validation_first_epoch (cfg : TrainCfg α π σ)
    (opt0 : OptState π) (s0 : σ) (trn_x val_x : List (List α))
    (trn_weights val_weights : Option (List α))
    (h0 : cfg.start_epoch ≠ 0) (h1 : cfg.start_epoch % cfg.evalmode ≠ 0)
    (h2 : 1 ≤ cfg.epochs) :
    train cfg opt0 s0 trn_x val_x trn_weights val_weights =
      Except.error "NameError: validation_loss" := by
  have hc' : validationCond cfg.evalmode cfg.start_epoch = false := by
    simp [validationCond]
    exact ⟨h0, h1⟩
  have herr : ∀ (tb vb : List (List (List α) × List α)),
      runEpoch cfg tb vb cfg.start_epoch (initLoopState opt0 s0) =
        Except.error "NameError: validation_loss" := by
    intro tb vb
    simp [runEpoch, hc', initLoopState]
  obtain ⟨k, hk⟩ := Nat.exists_eq_add_of_le h2
  have hr : List.range' cfg.start_epoch cfg.epochs =
      cfg.start_epoch :: List.range' (cfg.start_epoch + 1) k := by
    rw [hk, Nat.add_comm 1 k, List.range'_succ]
  simp only [train]
  rw [hr]
  simp [runEpochs, herr]

theorem train_unbound_validation_first_epoch_witness :
    cfgQ9.start_epoch ≠ 0 ∧ cfgQ9.start_epoch % cfgQ9.evalmode ≠ 0 ∧
    1 ≤ cfgQ9.epochs ∧
    train cfgQ9 ⟨(), true⟩ () [] [] none none =
      Except.error "NameError: validation_loss" :=
  ⟨by decide, by decide, by decide,
    train_unbound_validation_first_epoch cfgQ9 ⟨(), true⟩ () [] [] none none
      (by decide) (by decide) (by decide)⟩

/-- C2 is violated by the code: in the concrete two-epoch run below, epoch 0
(validation runs) performs the matched pair of `optimizer.swap()` calls, but
epoch 1 (validation skipped) performs only the single post-training swap, so
the averaged — not the raw — parameter view is live when the next TRAIN
phase would begin (`rawLive = false` at the end of the run). -/
theorem train_single_swap_on_skipped_validation_epoch :
    swapTrace (train cfgQ ⟨(), true⟩ () [] [] none none) =
      ([(0, 2, true), (1, 1, false)], false) := by
  rfl

lemma create_model_foldl_chain {ρ τ : Type} (p : ModelParam ρ τ) :
    ∀ (n k : ℕ) (acc : List (ModuleSpec ρ τ)), k + n = p.flows →
      List.foldl
        (fun acc f =>
          let withBlock := acc ++
            [ModuleSpec.bnaf (bnafLayers p)
              (if f < p.flows - 1 then some p.residual else none)]
          if f < p.flows - 1 then withBlock ++ [ModuleSpec.permutation p.n_dims p.perm]
          else withBlock)
        acc (List.range' k n)
      = acc ++ altChain p n := by
  intro n
  induction n with
  | zero => intro k acc _; simp [altChain]
  | succ m ih =>
    intro k acc hk
    rw [List.range'_succ, List.foldl_cons]
    cases m with
    | zero =>
      have hkk : ¬ (k < p.flows - 1) := by omega
      simp only [hkk, if_false]
      rw [show List.range' (k + 1) 0 = [] from rfl, List.foldl_nil]
      simp [altChain]
    | succ mm =>
      have hkk : k < p.flows - 1 := by omega
      simp only [hkk, if_true]
      rw [ih (k + 1) _ (by omega)]
      simp [altChain]

lemma altChain_countP_bnaf {ρ τ : Type} (p : ModelParam ρ τ) :
    ∀ n, (altChain p n).countP ModuleSpec.isBnaf = n := by
  intro n
  induction n with
  | zero => simp [altChain]
  | succ m ih =>
    cases m with
    | zero => simp [altChain, List.countP_cons, ModuleSpec.isBnaf]
    | succ mm =>
      rw [show altChain p (mm + 2) =
        ModuleSpec.bnaf (bnafLayers p) (some p.residual) ::
          ModuleSpec.permutation p.n_dims p.perm :: altChain p (mm + 1) from rfl]
      rw [List.countP_cons, List.countP_cons, ih]
      simp [ModuleSpec.isBnaf]

lemma altChain_countP_perm {ρ τ : Type} (p : ModelParam ρ τ) :
    ∀ n, (altChain p n).countP ModuleSpec.isPermutation = n - 1 := by
  intro n
  induction n with
  | zero => simp [altChain]
  | succ m ih =>
    cases m with
    | zero => simp [altChain, List.countP_cons, ModuleSpec.isPermutation]
    | succ mm =>
      rw [show altChain p (mm + 2) =
        ModuleSpec.bnaf (bnafLayers p) (some p.residual) ::
          ModuleSpec.permutation p.n_dims p.perm :: altChain p (mm + 1) from rfl]
      rw [List.countP_cons, List.countP_cons, ih]
      simp [ModuleSpec.isPermutation, ModuleSpec.isBnaf]

lemma altChain_getElem_interior {ρ τ : Type} (p : ModelParam ρ τ) :
    ∀ (i n : ℕ), i + 1 < n →
      (altChain p n)[2 * i]? = some (ModuleSpec.bnaf (bnafLayers p) (some p.residual)) ∧
      (altChain p n)[2 * i + 1]? = some (ModuleSpec.permutation p.n_dims p.perm) := by
  intro i
  induction i with
  | zero =>
    intro n hn
    cases n with
    | zero => omega
    | succ m =>
      cases m with
      | zero => omega
      | succ mm => simp [altChain]
  | succ j ih =>
    intro n hn
    cases n with
    | zero => omega
    | succ m =>
      cases m with
      | zero => omega
      | succ mm =>
        rw [show altChain p (mm + 2) =
          ModuleSpec.bnaf (bnafLayers p) (some p.residual) ::
            ModuleSpec.permutation p.n_dims p.perm :: altChain p (mm + 1) from rfl]
        constructor
        · rw [show 2 * (j + 1) = (2 * j + 1) + 1 from by ring]
          rw [List.getElem?_cons_succ, List.getElem?_cons_succ]
          exact (ih (mm + 1) (by omega)).1
        · rw [show 2 * (j + 1) + 1 = (2 * j + 1 + 1) + 1 from by ring]
          rw [List.getElem?_cons_succ, List.getElem?_cons_succ]
          exact (ih (mm + 1) (by omega)).2

lemma altChain_getElem_last {ρ τ : Type} (p : ModelParam ρ τ) :
    ∀ n, 1 ≤ n →
      (altChain p n)[2 * (n - 1)]? = some (ModuleSpec.bnaf (bnafLayers p) none) := by
  intro n
  induction n with
  | zero => intro h; omega
  | succ m ih =>
    intro _
    cases m with
    | zero => simp [altChain]
    | succ mm =>
      rw [show altChain p (mm + 2) =
        ModuleSpec.bnaf (bnafLayers p) (some p.residual) ::
          ModuleSpec.permutation p.n_dims p.perm :: altChain p (mm + 1) from rfl]
      rw [show 2 * ((mm + 2) - 1) = (2 * ((mm + 1) - 1) + 1) + 1 from by omega]
      rw [List.getElem?_cons_succ, List.getElem?_cons_succ]
      exact ih (by omega)

/-- C8: `create_model` builds exactly the alternating chain of `flows` BNAF
blocks with `flows - 1` permutation layers, one permutation between each pair
of consecutive blocks (blocks at even positions `2*f`, permutations at the
odd positions between them), the residual configured on every block except
the last, which gets `None`. -/
theorem create_model_block_alternation {ρ τ : Type} (p : ModelParam ρ τ) :
    create_model p = altChain p p.flows ∧
    (create_model p).countP ModuleSpec.isBnaf = p.flows ∧
    (create_model p).countP ModuleSpec.isPermutation = p.flows - 1 ∧
    (∀ f, f + 1 < p.flows →
      (create_model p)[2 * f]? = some (ModuleSpec.bnaf (bnafLayers p) (some p.residual)) ∧
      (create_model p)[2 * f + 1]? = some (ModuleSpec.permutation p.n_dims p.perm)) ∧
    (1 ≤ p.flows →
      (create_model p)[2 * (p.flows - 1)]? = some (ModuleSpec.bnaf (bnafLayers p) none)) := by
  have hchain : create_model p = altChain p p.flows := by
    rw [create_model, List.range_eq_range']
    rw [create_model_foldl_chain p p.flows 0 [] (by omega)]
    rfl
  refine ⟨hchain, ?_, ?_, ?_, ?_⟩
  · rw [hchain]; exact altChain_countP_bnaf p p.flows
  · rw [hchain]; exact altChain_countP_perm p p.flows
  · intro f hf
    rw [hchain]
    exact altChain_getElem_interior p f p.flows hf
  · intro hfl
    rw [hchain]
    exact altChain_getElem_last p p.flows hfl

theorem create_model_block_alternation_witness :
    (0 + 1 < pW.flows) ∧ (1 ≤ pW.flows) ∧
    (create_model pW)[0]? = some (ModuleSpec.bnaf (bnafLayers pW) (some pW.residual)) ∧
    (create_model pW)[1]? = some (ModuleSpec.permutation pW.n_dims pW.perm) ∧
    (create_model pW)[2 * (pW.flows - 1)]? = some (ModuleSpec.bnaf (bnafLayers pW) none) := by
  have h := create_model_block_alternation pW
  exact ⟨by decide, by decide, (h.2.2.2.1 0 (by decide)).1, (h.2.2.2.1 0 (by decide)).2,
    h.2.2.2.2 (by decide)⟩

end Dbnf
